import Mathlib

/-!
Verification of the jewelry-catalog storefront/admin repository.

Shallow embedding of:
- `src/src/components/admin/AdminCategoriesTab.tsx` — the category tree
  presenter (`topLevelCategories`, `getSubcategories`, `getItemCount`,
  `getImageCount`, `CategoryCard`, the render loop), the delete guard
  (`handleDeleteCategory`) and the form-submit handler
  (`handleCategorySubmit` / `resetCategoryForm`);
- `src/unnamed/part_000` — the `useGoldPrice` polling hook;
- `src/supabase/migrations/20251030193458_fix_duplicate_policy_error.sql` —
  the row-level-security policy set.

JavaScript semantics that matter here are modelled explicitly: optional
(nullable) strings are `Option String`, and JS falsiness of a string value
(`undefined`, `null` and `""` are all falsy) is `falsyStr`.
-/

namespace JewelryApp

/-- `Category` record as consumed by `AdminCategoriesTab`; wire shape
`{ id, name, description?, image_url?, parent_id? }`. -/
structure Category where
  id : String
  name : String
  description : Option String
  image_url : Option String
  parent_id : Option String
deriving DecidableEq

/-- `JewelryItem` collaborator; the admin categories tab reads only its
`category` tag (a denormalized string keyed against `Category.name`). -/
structure JewelryItem where
  category : String
deriving DecidableEq

/-- JS falsiness of an optional string: `undefined`, `null` and `""` are
falsy. Used for the checks `!cat.parent_id` (line 125) and
`category.image_url ? _ : _` (line 133). -/
def falsyStr : Option String → Bool
  | none => true
  | some s => s == ""

/-- Line 125: `categories.filter(cat => !cat.parent_id)`. -/
def topLevelCategories (categories : List Category) : List Category :=
  categories.filter (fun c => falsyStr c.parent_id)

/-- Lines 126–127: `categories.filter(cat => cat.parent_id === parentId)`. -/
def getSubcategories (categories : List Category) (parentId : String) : List Category :=
  categories.filter (fun c => c.parent_id == some parentId)

/-- Lines 129–130: `items.filter(item => item.category === categoryName).length`. -/
def getItemCount (items : List JewelryItem) (categoryName : String) : Nat :=
  (items.filter (fun item => item.category == categoryName)).length

/-- JS `String.prototype.split(',')` on the underlying character list:
splits at every comma, keeping empty segments, and maps `""` to `[""]`. -/
def splitCommaChars : List Char → List Char → List (List Char)
  | [], acc => [acc.reverse]
  | ch :: cs, acc =>
    if ch = ',' then acc.reverse :: splitCommaChars cs []
    else splitCommaChars cs (ch :: acc)

/-- JS `'a,b'.split(',')` as a function on strings. -/
def jsSplitComma (s : String) : List String :=
  (splitCommaChars s.data []).map String.mk

/-- JS `String.prototype.trim()`: strip whitespace from both ends. -/
def jsTrim (s : String) : String :=
  String.mk (((s.data.dropWhile Char.isWhitespace).reverse.dropWhile Char.isWhitespace).reverse)

/-- Lines 132–135: comma-split `image_url`, trim each part, keep the truthy
(non-empty) ones and count them; `0` when `image_url` is falsy. -/
def getImageCount (category : Category) : Nat :=
  match category.image_url with
  | none => 0
  | some s =>
    if s = "" then 0
    else (((jsSplitComma s).map jsTrim).filter (fun url => url != "")).length

/-- The hard-coded fallback shown when no usable cover image exists (line 149). -/
def fallbackCoverImage : String :=
  "https://images.pexels.com/photos/265856/pexels-photo-265856.jpeg"

/-- Line 149: `category.image_url?.split(',')[0]?.trim() || fallback`.
`split` always returns a nonempty array, so the `[0]?` step only matters
through the final `||`: a falsy (empty) trimmed first segment falls back. -/
def coverImage (category : Category) : String :=
  match category.image_url with
  | none => fallbackCoverImage
  | some s =>
    let first := jsTrim ((jsSplitComma s).headD "")
    if first = "" then fallbackCoverImage else first

/-- Image count as the specification words it (section 4.1): number of
non-empty, trimmed comma-separated segments in `image_url`; zero if absent.
A second definition following the spec's words, to be compared with the
source-derived `getImageCount`. -/
def specImageCount : Option String → Nat
  | none => 0
  | some s => (((jsSplitComma s).map jsTrim).filter (fun seg => seg != "")).length

/-- Outcome of one `handleDeleteCategory` invocation (lines 85–112). -/
inductive DeleteOutcome where
  | blockedByItems (message : String)
  | blockedBySubcategories (message : String)
  | cancelled
  | deleteIssued (id : String)
deriving DecidableEq

/-- Exact alert text of the item-count guard (line 93). -/
def itemsBlockMessage (categoryName : String) (n : Nat) : String :=
  "Cannot delete category \"" ++ categoryName ++ "\" because it contains " ++
    toString n ++ " items. Please move or delete the items first."

/-- Exact alert text of the subcategory guard (line 98). -/
def subsBlockMessage (categoryName : String) (n : Nat) : String :=
  "Cannot delete category \"" ++ categoryName ++ "\" because it has " ++
    toString n ++ " subcategories. Please delete the subcategories first."

/-- Lines 85–112. `confirmResult` is the answer of the interactive
`confirm(...)` dialog; a remote delete happens exactly on `deleteIssued`. -/
def handleDeleteCategory (categories : List Category) (items : List JewelryItem)
    (confirmResult : Bool) (id : String) (categoryName : String) : DeleteOutcome :=
  let itemCount := (items.filter (fun item => item.category == categoryName)).length
  let subcategories := categories.filter (fun c => c.parent_id == some id)
  if 0 < itemCount then
    .blockedByItems (itemsBlockMessage categoryName itemCount)
  else if 0 < subcategories.length then
    .blockedBySubcategories (subsBlockMessage categoryName subcategories.length)
  else if confirmResult then
    .deleteIssued id
  else
    .cancelled

/-- The remote request issued by an outcome, if any. -/
def remoteDeleteOf : DeleteOutcome → Option String
  | .deleteIssued i => some i
  | _ => none

/-- The category form's state (line 16): all four fields are plain strings;
an unselected parent is the empty string. -/
structure CategoryFormData where
  name : String
  description : String
  image_url : String
  parent_id : String
deriving DecidableEq

/-- Line 41: the reset values. -/
def emptyCategoryFormData : CategoryFormData :=
  { name := "", description := "", image_url := "", parent_id := "" }

/-- Record sent to the backend on submit. -/
structure SubmitData where
  name : String
  description : String
  image_url : String
  parent_id : Option String
deriving DecidableEq

/-- Lines 60–63: `{ ...categoryFormData, parent_id: categoryFormData.parent_id || null }`.
JS `s || null` maps the empty string to `null` and keeps any other string. -/
def buildSubmitData (f : CategoryFormData) : SubmitData :=
  { name := f.name, description := f.description, image_url := f.image_url,
    parent_id := if f.parent_id = "" then none else some f.parent_id }

/-- The remote call issued by `handleCategorySubmit`: update when a category
is being edited, insert otherwise (lines 66–75). -/
inductive SubmitRequest where
  | update (id : String) (payload : SubmitData)
  | insert (payload : SubmitData)
deriving DecidableEq

/-- Payload carried by a submit request. -/
def SubmitRequest.payload : SubmitRequest → SubmitData
  | .update _ p => p
  | .insert p => p

/-- Component state touched by the submit flow. -/
structure AdminCategoriesState where
  categories : List Category
  showAddCategoryForm : Bool
  editingCategory : Option Category
  categoryFormData : CategoryFormData
deriving DecidableEq

/-- The request `handleCategorySubmit` sends for a given state. -/
def submitRequest (st : AdminCategoriesState) : SubmitRequest :=
  match st.editingCategory with
  | some c => .update c.id (buildSubmitData st.categoryFormData)
  | none => .insert (buildSubmitData st.categoryFormData)

/-- Lines 57–83 after the remote call returns. `remoteOk` is whether the
insert/update succeeded; on success `loadCategories` re-fetches
(`reloadData`; its own failures are swallowed and leave the list unchanged,
lines 24–38) and then `resetCategoryForm` (lines 40–44) closes and clears
the form. On failure only an alert is shown (the returned `Bool`) and no
state changes. -/
def handleCategorySubmit (st : AdminCategoriesState) (remoteOk : Bool)
    (reloadData : Option (List Category)) : AdminCategoriesState × Bool :=
  if remoteOk then
    let reloaded :=
      match reloadData with
      | some cs => { st with categories := cs }
      | none => st
    ({ reloaded with categoryFormData := emptyCategoryFormData, showAddCategoryForm := false, editingCategory := none }, false)
  else
    (st, true)

/-- State of the `useGoldPrice` hook (`src/unnamed/part_000`). The fetched
price is only stored, never computed with, so an integer carrier is
faithful. -/
structure GoldPriceState where
  goldPrice : Int
  loading : Bool
  error : Option String
deriving DecidableEq

/-- Lines 5–7: `useState(5450)`, `useState(true)`, `useState(null)`. -/
def initialGoldPriceState : GoldPriceState :=
  { goldPrice := 5450, loading := true, error := none }

/-- Lines 12–26: one run of `fetchGoldPrice`. `result` is `some price` on a
successful `getCurrentGoldPrice()` and `none` on a thrown error; `mounted`
guards every state update made after the `await`. (`setLoading(true)` and
`setError(null)` run before the `await` and are not guarded.) -/
def fetchGoldPrice (st : GoldPriceState) (mounted : Bool) (result : Option Int) :
    GoldPriceState :=
  let st1 := { st with loading := true, error := none }
  let st2 :=
    match result with
    | some price => if mounted then { st1 with goldPrice := price } else st1
    | none =>
      if mounted then { st1 with error := some "Failed to fetch gold price" } else st1
  if mounted then { st2 with loading := false } else st2

/-- A rendered category card: the category, the `isSubcategory` flag it was
rendered with, and the cards rendered for its subcategories (empty when the
node is collapsed or has none). Per-card derived numbers (`getItemCount`,
`getImageCount`, `coverImage`) are pure functions of the category and the
inputs and are treated separately. -/
inductive RNode where
  | node (category : Category) (sub : Bool) (children : List RNode)

/-- Category shown by a rendered card. -/
def RNode.cat : RNode → Category
  | .node c _ _ => c

/-- Children of a rendered card. -/
def RNode.children : RNode → List RNode
  | .node _ _ ch => ch

/-- Map a fallible function over a list, failing as soon as one element
fails; models mapping the recursive render over `subcategories`. -/
def optMapList (f : α → Option β) : List α → Option (List β)
  | [] => some []
  | a :: as =>
    match f a, optMapList f as with
    | some b, some bs => some (b :: bs)
    | _, _ => none

/-- One unfolding of `CategoryCard` (lines 137–213): the card itself is
always rendered; when `hasSubcategories && isExpanded` (lines 141–142, 204)
every direct subcategory is rendered beneath it with the supplied renderer
`r` and `isSubcategory := true` (lines 206–208). `expanded` is the
`expandedCategories` id set. -/
def renderStep (categories : List Category) (expanded : List String)
    (r : Bool → Category → Option RNode) (sub : Bool) (c : Category) : Option RNode :=
  if 0 < (getSubcategories categories c.id).length ∧ c.id ∈ expanded then
    match optMapList (r true) (getSubcategories categories c.id) with
    | none => none
    | some children => some (.node c sub children)
  else
    some (.node c sub [])

/-- `CategoryCard` with an explicit recursion budget. The source recurses
without any bound, so running out of fuel (`none`) is the model's marker for
a non-terminating recursion; a terminating rendering is one whose value is
`some _` and no longer changes once the fuel is large enough. -/
def renderCategoryCard (categories : List Category) (expanded : List String) :
    Nat → Bool → Category → Option RNode
  | 0 => fun _ _ => none
  | fuel + 1 => renderStep categories expanded (renderCategoryCard categories expanded fuel)

/-- Lines 231–234: a `CategoryCard` for every top-level category, in order,
with `isSubcategory` defaulting to `false`. -/
def renderTree (categories : List Category) (expanded : List String) (fuel : Nat) :
    Option (List RNode) :=
  optMapList (renderCategoryCard categories expanded fuel false) (topLevelCategories categories)

mutual

/-- All categories rendered inside one card, in visit (pre-)order. -/
def flattenNode : RNode → List Category
  | .node c _ ch => c :: flattenForest ch

/-- All categories rendered inside a list of cards, in visit order. -/
def flattenForest : List RNode → List Category
  | [] => []
  | n :: ns => flattenNode n ++ flattenForest ns

end

/-- Structural specification of a rendered card: its children are exactly
the direct subcategories, in input order, when the card has subcategories
and is expanded — and empty otherwise — recursively at every depth. -/
inductive NodeOK (categories : List Category) (expanded : List String) : RNode → Prop
  | mk (c : Category) (sub : Bool) (ch : List RNode)
      (hch : ch.map RNode.cat =
        if 0 < (getSubcategories categories c.id).length ∧ c.id ∈ expanded
        then getSubcategories categories c.id else [])
      (hrec : ∀ n ∈ ch, NodeOK categories expanded n) :
      NodeOK categories expanded (.node c sub ch)

/-- `Reaches categories c anc`: following `parent_id` upward from `c` visits
exactly the categories in `anc` (nearest parent first) and ends at a
category the presenter treats as top-level (falsy `parent_id`); i.e. `c` is
reachable from a top-level category by a finite chain of `parent_id` links. -/
inductive Reaches (categories : List Category) : Category → List Category → Prop
  | root (c : Category) (hc : c ∈ categories) (hr : falsyStr c.parent_id = true) :
      Reaches categories c []
  | step (c p : Category) (anc : List Category) (hc : c ∈ categories)
      (hp : c.parent_id = some p.id) (h : Reaches categories p anc) :
      Reaches categories c (p :: anc)

/-- `c` lies on, or leads into, a cycle of `parent_id` links: it belongs to
a nonempty set of categories each of whose members has its parent inside the
set. A self-referencing `parent_id` is the singleton case; every genuine
cycle is such a set, so "participates in a cycle" is covered. -/
def InParentCycle (categories : List Category) (c : Category) : Prop :=
  ∃ l : List Category, c ∈ l ∧ (∀ d ∈ l, d ∈ categories) ∧
    ∀ d ∈ l, ∃ p ∈ l, d.parent_id = some p.id

/-- Database role a policy is granted `TO`. -/
inductive DbRole where
  | public
  | authenticated
deriving DecidableEq, BEq

/-- Operation a policy is `FOR`. -/
inductive DbOp where
  | select
  | insert
  | update
  | delete
deriving DecidableEq, BEq

/-- One `CREATE POLICY` statement. -/
structure Policy where
  name : String
  table : String
  op : DbOp
  role : DbRole
deriving DecidableEq

/-- The eleven policies created by
`20251030193458_fix_duplicate_policy_error.sql` (all earlier homonymous
policies are dropped first, so this is the resulting policy set). -/
def migrationPolicies : List Policy :=
  [ ⟨"Categories are publicly readable", "categories", .select, .public⟩,
    ⟨"Only authenticated users can insert categories", "categories", .insert, .authenticated⟩,
    ⟨"Only authenticated users can update categories", "categories", .update, .authenticated⟩,
    ⟨"Only authenticated users can delete categories", "categories", .delete, .authenticated⟩,
    ⟨"Jewelry items are publicly readable", "jewelry_items", .select, .public⟩,
    ⟨"Only authenticated users can insert jewelry items", "jewelry_items", .insert, .authenticated⟩,
    ⟨"Only authenticated users can update jewelry items", "jewelry_items", .update, .authenticated⟩,
    ⟨"Only authenticated users can delete jewelry items", "jewelry_items", .delete, .authenticated⟩,
    ⟨"Authenticated users can read admin settings", "admin_settings", .select, .authenticated⟩,
    ⟨"Authenticated users can update admin settings", "admin_settings", .update, .authenticated⟩,
    ⟨"Authenticated users can insert admin settings", "admin_settings", .insert, .authenticated⟩ ]

/-- Whether some policy grants `op` on `table` to `role`. -/
def hasPolicy (table : String) (op : DbOp) (role : DbRole) : Bool :=
  migrationPolicies.any (fun p => p.table == table && p.op == op && p.role == role)

/-! Concrete inputs used by counterexamples and witnesses. -/

/-- A category whose `parent_id` is present but empty. -/
def catEmptyParent : Category := ⟨"a", "A", none, none, some ""⟩

/-- Three-level chain: `chainB` is a child of `chainA`, `chainC` of `chainB`. -/
def chainA : Category := ⟨"a", "A", none, none, none⟩

def chainB : Category := ⟨"b", "B", none, none, some "a"⟩

def chainC : Category := ⟨"c", "C", none, none, some "b"⟩

def chainCats : List Category := [chainA, chainB, chainC]

def chainExpanded : List String := ["a", "b"]

/-- The rendering of `chainCats` with `chainA` and `chainB` expanded. -/
def chainForest : List RNode :=
  [.node chainA false [.node chainB true [.node chainC true []]]]

/-- Two categories with distinct ids whose `parent_id` links form a cycle
the renderer actually follows: `cycX` is treated as top-level because its
`parent_id` is the (falsy) empty string, yet it is also the subcategory of
`cycE`, whose id is the empty string. -/
def cycX : Category := ⟨"x", "X", none, none, some ""⟩

def cycE : Category := ⟨"", "E", none, none, some "x"⟩

def cycCats : List Category := [cycX, cycE]

def cycExpanded : List String := ["x", ""]

/-- The spec's image example. -/
def galleryCat : Category := ⟨"cat-1", "Gallery", none, some "a.jpg, b.jpg,  c.jpg", none⟩

/-- A category whose first comma-separated segment trims to the empty
string. -/
def oddImageCat : Category := ⟨"cat-2", "Odd", none, some " ,b.jpg", none⟩

/-! ### Basic lemmas about the tree helpers -/

theorem mem_getSubcategories {categories : List Category} {parentId : String} {d : Category} :
    d ∈ getSubcategories categories parentId ↔ d ∈ categories ∧ d.parent_id = some parentId := by
  simp [getSubcategories, List.mem_filter]

theorem getSubcategories_nodup {categories : List Category} (h : categories.Nodup)
    (parentId : String) : (getSubcategories categories parentId).Nodup :=
  h.filter _

theorem mem_topLevelCategories {categories : List Category} {c : Category} :
    c ∈ topLevelCategories categories ↔ c ∈ categories ∧ falsyStr c.parent_id = true := by
  simp [topLevelCategories, List.mem_filter]

/-- When no category's `parent_id` is the empty string, a falsy `parent_id`
is an absent one. -/
theorem falsy_parent_eq_none {categories : List Category}
    (hpar : ∀ c ∈ categories, c.parent_id ≠ some "") {c : Category}
    (hc : c ∈ categories) (hf : falsyStr c.parent_id = true) : c.parent_id = none := by
  cases hpid : c.parent_id with
  | none => rfl
  | some s =>
    rw [hpid] at hf
    simp only [falsyStr, beq_iff_eq] at hf
    subst hf
    exact absurd hpid (hpar c hc)

/-- Distinct ids make the id map injective on members. -/
theorem id_inj {categories : List Category} (hids : (categories.map Category.id).Nodup)
    {a b : Category} (ha : a ∈ categories) (hb : b ∈ categories) (h : a.id = b.id) : a = b :=
  List.inj_on_of_nodup_map hids ha hb h

/-! ### Ancestor chains -/

theorem Reaches.mem_self {categories : List Category} {c : Category} {anc : List Category}
    (h : Reaches categories c anc) : c ∈ categories := by
  cases h with
  | root _ hc _ => exact hc
  | step _ _ _ hc _ _ => exact hc

theorem Reaches.chain_subset {categories : List Category} {c : Category} {anc : List Category}
    (h : Reaches categories c anc) : ∀ y ∈ c :: anc, y ∈ categories := by
  induction h with
  | root c hc _ =>
    intro y hy
    rw [List.mem_singleton] at hy
    exact hy ▸ hc
  | step c p anc hc hp h ih =>
    intro y hy
    rcases List.mem_cons.mp hy with rfl | hy2
    · exact hc
    · exact ih y hy2

/-- With distinct ids and no empty-string parent references, the ancestor
chain of a category is unique. -/
theorem Reaches.unique {categories : List Category}
    (hids : (categories.map Category.id).Nodup)
    (hpar : ∀ c ∈ categories, c.parent_id ≠ some "")
    {c : Category} {anc₁ anc₂ : List Category}
    (h₁ : Reaches categories c anc₁) (h₂ : Reaches categories c anc₂) : anc₁ = anc₂ := by
  induction h₁ generalizing anc₂ with
  | root c hc hr =>
    cases h₂ with
    | root => rfl
    | step c p anc hc2 hp h2 =>
      exfalso
      rw [hp] at hr
      simp only [falsyStr, beq_iff_eq] at hr
      exact hpar c hc (by rw [hp, hr])
  | step c p anc hc hp h ih =>
    cases h₂ with
    | root c hc2 hr =>
      exfalso
      rw [hp] at hr
      simp only [falsyStr, beq_iff_eq] at hr
      exact hpar c hc (by rw [hp, hr])
    | step c p2 anc2 hc2 hp2 h2 =>
      have hpid : p.id = p2.id := by
        rw [hp] at hp2
        exact Option.some.inj hp2
      have hpp : p = p2 := id_inj hids h.mem_self h2.mem_self hpid
      subst hpp
      rw [ih h2]

/-- Every member of an ancestor chain has a chain of its own, at most as
long as the tail it sits in. -/
theorem Reaches.mem_chain_reaches {categories : List Category} {x : Category}
    {r : List Category} (h : Reaches categories x r) :
    ∀ y ∈ x :: r, ∃ r₂, Reaches categories y r₂ ∧ r₂.length ≤ r.length := by
  induction h with
  | root c hc hr =>
    intro y hy
    rw [List.mem_singleton] at hy
    subst hy
    exact ⟨[], Reaches.root _ hc hr, Nat.le_refl _⟩
  | step c p anc hc hp h ih =>
    intro y hy
    rcases List.mem_cons.mp hy with rfl | hy2
    · exact ⟨p :: anc, Reaches.step _ p anc hc hp h, Nat.le_refl _⟩
    · rcases ih y hy2 with ⟨r₂, hr₂, hlen⟩
      exact ⟨r₂, hr₂, hlen.trans (Nat.le_succ _)⟩

theorem Reaches.chain_nodup {categories : List Category}
    (hids : (categories.map Category.id).Nodup)
    (hpar : ∀ c ∈ categories, c.parent_id ≠ some "")
    {c : Category} {anc : List Category} (h : Reaches categories c anc) :
    (c :: anc).Nodup := by
  induction h with
  | root c hc hr => simp
  | step c p anc hc hp h ih =>
    rw [List.nodup_cons]
    refine ⟨fun hmem => ?_, ih⟩
    rcases h.mem_chain_reaches c hmem with ⟨r₂, hr₂, hlen⟩
    have heq := Reaches.unique hids hpar (Reaches.step c p anc hc hp h) hr₂
    rw [← heq, List.length_cons] at hlen
    omega

theorem Reaches.length_lt {categories : List Category}
    (hids : (categories.map Category.id).Nodup)
    (hpar : ∀ c ∈ categories, c.parent_id ≠ some "")
    {c : Category} {anc : List Category} (h : Reaches categories c anc) :
    anc.length < categories.length := by
  have hnd := h.chain_nodup hids hpar
  have hsub : (c :: anc) ⊆ categories := fun y hy => h.chain_subset y hy
  have hle := (hnd.subperm hsub).length_le
  rw [List.length_cons] at hle
  omega

/-- A category reachable from a top-level one cannot lie on (or lead into)
a `parent_id` cycle. -/
theorem Reaches.not_inParentCycle {categories : List Category} {c : Category}
    {anc : List Category} (h : Reaches categories c anc)
    (hids : (categories.map Category.id).Nodup)
    (hpar : ∀ c ∈ categories, c.parent_id ≠ some "") :
    ¬ InParentCycle categories c := by
  induction h with
  | root c hc hr =>
    rintro ⟨l, hcl, hsub, hclosed⟩
    rcases hclosed c hcl with ⟨p, hpl, hpe⟩
    rw [hpe] at hr
    simp only [falsyStr, beq_iff_eq] at hr
    exact hpar c hc (by rw [hpe, hr])
  | step c p anc hc hp h ih =>
    rintro ⟨l, hcl, hsub, hclosed⟩
    rcases hclosed c hcl with ⟨q, hql, hqe⟩
    have hq : q = p := by
      apply id_inj hids (hsub q hql) h.mem_self
      rw [hp] at hqe
      exact (Option.some.inj hqe).symm
    exact ih ⟨l, hq ▸ hql, hsub, hclosed⟩

/-! ### `optMapList` lemmas -/

theorem optMapList_isSome {α β : Type _} {f : α → Option β} :
    ∀ {l : List α}, (∀ a ∈ l, (f a).isSome) → (optMapList f l).isSome := by
  intro l
  induction l with
  | nil => intro _; simp [optMapList]
  | cons a as ih =>
    intro h
    rcases Option.isSome_iff_exists.mp (h a (List.mem_cons_self a as)) with ⟨b, hb⟩
    rcases Option.isSome_iff_exists.mp
      (ih (fun x hx => h x (List.mem_cons_of_mem a hx))) with ⟨bs, hbs⟩
    simp [optMapList, hb, hbs]

theorem optMapList_mem_exists {α β : Type _} {f : α → Option β} :
    ∀ {l : List α} {r : List β}, optMapList f l = some r → ∀ b ∈ r, ∃ a ∈ l, f a = some b := by
  intro l
  induction l with
  | nil =>
    intro r h b hb
    simp only [optMapList, Option.some.injEq] at h
    subst h
    simp at hb
  | cons a as ih =>
    intro r h b hb
    cases hfa : f a with
    | none => simp [optMapList, hfa] at h
    | some b0 =>
      cases hrest : optMapList f as with
      | none => simp [optMapList, hfa, hrest] at h
      | some bs =>
        simp only [optMapList, hfa, hrest, Option.some.injEq] at h
        subst h
        rcases List.mem_cons.mp hb with rfl | hb2
        · exact ⟨a, List.mem_cons_self _ _, hfa⟩
        · rcases ih hrest b hb2 with ⟨a2, ha2, hfa2⟩
          exact ⟨a2, List.mem_cons_of_mem _ ha2, hfa2⟩

theorem optMapList_map_eq {α β : Type _} {f : α → Option β} {m : β → α}
    (hm : ∀ a b, f a = some b → m b = a) :
    ∀ {l : List α} {r : List β}, optMapList f l = some r → r.map m = l := by
  intro l
  induction l with
  | nil =>
    intro r h
    simp only [optMapList, Option.some.injEq] at h
    subst h
    rfl
  | cons a as ih =>
    intro r h
    cases hfa : f a with
    | none => simp [optMapList, hfa] at h
    | some b0 =>
      cases hrest : optMapList f as with
      | none => simp [optMapList, hfa, hrest] at h
      | some bs =>
        simp only [optMapList, hfa, hrest, Option.some.injEq] at h
        subst h
        simp [List.map_cons, hm a b0 hfa, ih hrest]

theorem optMapList_mono {α β : Type _} {f g : α → Option β}
    (hfg : ∀ a b, f a = some b → g a = some b) :
    ∀ {l : List α} {r : List β}, optMapList f l = some r → optMapList g l = some r := by
  intro l
  induction l with
  | nil => intro r h; exact h
  | cons a as ih =>
    intro r h
    cases hfa : f a with
    | none => simp [optMapList, hfa] at h
    | some b0 =>
      cases hrest : optMapList f as with
      | none => simp [optMapList, hfa, hrest] at h
      | some bs =>
        simp only [optMapList, hfa, hrest, Option.some.injEq] at h
        subst h
        simp [optMapList, hfg a b0 hfa, ih hrest]

/-! ### Render basics -/

theorem renderCategoryCard_zero (categories : List Category) (expanded : List String)
    (b : Bool) (c : Category) :
    renderCategoryCard categories expanded 0 b c = none := rfl

theorem renderCategoryCard_succ (categories : List Category) (expanded : List String)
    (fuel : Nat) (b : Bool) (c : Category) :
    renderCategoryCard categories expanded (fuel + 1) b c =
      renderStep categories expanded (renderCategoryCard categories expanded fuel) b c := rfl

/-- Case analysis of one successful render step. -/
theorem renderStep_eq_some {categories : List Category} {expanded : List String}
    {r : Bool → Category → Option RNode} {sub : Bool} {c : Category} {n : RNode}
    (h : renderStep categories expanded r sub c = some n) :
    (¬ (0 < (getSubcategories categories c.id).length ∧ c.id ∈ expanded) ∧
      n = .node c sub []) ∨
    ((0 < (getSubcategories categories c.id).length ∧ c.id ∈ expanded) ∧
      ∃ ch, optMapList (r true) (getSubcategories categories c.id) = some ch ∧
        n = .node c sub ch) := by
  unfold renderStep at h
  by_cases hcond : 0 < (getSubcategories categories c.id).length ∧ c.id ∈ expanded
  · right
    refine ⟨hcond, ?_⟩
    rw [if_pos hcond] at h
    cases hmap : optMapList (r true) (getSubcategories categories c.id) with
    | none => rw [hmap] at h; exact absurd h (by simp)
    | some ch =>
      rw [hmap] at h
      exact ⟨ch, rfl, (Option.some.inj h).symm⟩
  · left
    rw [if_neg hcond] at h
    exact ⟨hcond, (Option.some.inj h).symm⟩

theorem renderCategoryCard_cat {categories : List Category} {expanded : List String}
    {fuel : Nat} {b : Bool} {c : Category} {n : RNode}
    (h : renderCategoryCard categories expanded fuel b c = some n) : n.cat = c := by
  cases fuel with
  | zero => rw [renderCategoryCard_zero] at h; exact absurd h (by simp)
  | succ f =>
    rw [renderCategoryCard_succ] at h
    rcases renderStep_eq_some h with ⟨-, rfl⟩ | ⟨-, ch, -, rfl⟩ <;> rfl

/-- Once a rendering succeeds, more fuel yields the same result. -/
theorem renderCategoryCard_mono {categories : List Category} {expanded : List String} :
    ∀ {f f' : Nat}, f ≤ f' → ∀ {b : Bool} {c : Category} {n : RNode},
      renderCategoryCard categories expanded f b c = some n →
      renderCategoryCard categories expanded f' b c = some n := by
  intro f
  induction f with
  | zero =>
    intro f' _ b c n h
    rw [renderCategoryCard_zero] at h
    exact absurd h (by simp)
  | succ f ih =>
    intro f' hff b c n h
    obtain ⟨f2, rfl⟩ : ∃ f2, f' = f2 + 1 := ⟨f' - 1, by omega⟩
    have hf2 : f ≤ f2 := by omega
    rw [renderCategoryCard_succ] at h ⊢
    rcases renderStep_eq_some h with ⟨hcond, rfl⟩ | ⟨hcond, ch, hmap, rfl⟩
    · unfold renderStep
      rw [if_neg hcond]
    · unfold renderStep
      rw [if_pos hcond, optMapList_mono (fun a n2 ha => ih hf2 ha) hmap]

theorem renderTree_mono {categories : List Category} {expanded : List String}
    {f f' : Nat} (hff : f ≤ f') {forest : List RNode}
    (h : renderTree categories expanded f = some forest) :
    renderTree categories expanded f' = some forest := by
  unfold renderTree at h ⊢
  exact optMapList_mono (fun a n ha => renderCategoryCard_mono hff ha) h

/-- With distinct ids and no empty-string parent references, fuel
`categories.length` is enough to render any reachable category. -/
theorem renderCategoryCard_isSome {categories : List Category} {expanded : List String}
    (hids : (categories.map Category.id).Nodup)
    (hpar : ∀ c ∈ categories, c.parent_id ≠ some "") :
    ∀ (fuel : Nat) {c : Category} {anc : List Category} (b : Bool),
      Reaches categories c anc → categories.length - anc.length ≤ fuel →
      (renderCategoryCard categories expanded fuel b c).isSome := by
  intro fuel
  induction fuel with
  | zero =>
    intro c anc b hre hle
    exfalso
    have := hre.length_lt hids hpar
    omega
  | succ f ih =>
    intro c anc b hre hle
    rw [renderCategoryCard_succ]
    unfold renderStep
    by_cases hcond : 0 < (getSubcategories categories c.id).length ∧ c.id ∈ expanded
    · rw [if_pos hcond]
      have hmap : (optMapList (renderCategoryCard categories expanded f true)
          (getSubcategories categories c.id)).isSome := by
        apply optMapList_isSome
        intro d hd
        rcases mem_getSubcategories.mp hd with ⟨hdc, hdp⟩
        apply ih true (Reaches.step d c anc hdc hdp hre)
        rw [List.length_cons]
        omega
      rcases Option.isSome_iff_exists.mp hmap with ⟨ch, hch⟩
      rw [hch]
      rfl
    · rw [if_neg hcond]
      rfl

/-- Every successfully rendered card satisfies the structural children
specification `NodeOK`, at every depth. -/
theorem renderCategoryCard_nodeOK {categories : List Category} {expanded : List String} :
    ∀ {fuel : Nat} {b : Bool} {c : Category} {n : RNode},
      renderCategoryCard categories expanded fuel b c = some n →
      NodeOK categories expanded n := by
  intro fuel
  induction fuel with
  | zero =>
    intro b c n h
    rw [renderCategoryCard_zero] at h
    exact absurd h (by simp)
  | succ f ih =>
    intro b c n h
    rw [renderCategoryCard_succ] at h
    rcases renderStep_eq_some h with ⟨hcond, rfl⟩ | ⟨hcond, ch, hmap, rfl⟩
    · refine NodeOK.mk c b [] ?_ (by intro n2 hn2; simp at hn2)
      rw [List.map_nil, if_neg hcond]
    · refine NodeOK.mk c b ch ?_ ?_
      · rw [if_pos hcond]
        exact optMapList_map_eq (fun a n2 hn2 => renderCategoryCard_cat hn2) hmap
      · intro n2 hn2
        rcases optMapList_mem_exists hmap n2 hn2 with ⟨d, hd, hdn⟩
        exact ih hdn

/-- Soundness of the rendering: with distinct ids and no empty-string
parent references, every rendered category sits on a unique ancestor chain
extending the chain of the card it was rendered under, and no category is
rendered twice. Stated for a single card and for a list of sibling cards,
by mutual induction on the fuel. -/
theorem renderSound {categories : List Category} {expanded : List String}
    (hids : (categories.map Category.id).Nodup)
    (hpar : ∀ c ∈ categories, c.parent_id ≠ some "") :
    ∀ fuel : Nat,
      (∀ (b : Bool) (c : Category) (anc : List Category) (n : RNode),
        Reaches categories c anc →
        renderCategoryCard categories expanded fuel b c = some n →
        (flattenNode n).Nodup ∧
        ∀ e ∈ flattenNode n, e = c ∨ ∃ t, Reaches categories e (t ++ c :: anc)) ∧
      (∀ (b : Bool) (cs : List Category) (anc₀ : List Category) (ns : List RNode),
        (∀ d ∈ cs, Reaches categories d anc₀) → cs.Nodup →
        optMapList (renderCategoryCard categories expanded fuel b) cs = some ns →
        (flattenForest ns).Nodup ∧
        ∀ e ∈ flattenForest ns, ∃ d ∈ cs, e = d ∨ ∃ t, Reaches categories e (t ++ d :: anc₀)) := by
  intro fuel
  induction fuel with
  | zero =>
    constructor
    · intro b c anc n hre h
      rw [renderCategoryCard_zero] at h
      exact absurd h (by simp)
    · intro b cs anc₀ ns hre hnd h
      cases cs with
      | nil =>
        simp only [optMapList, Option.some.injEq] at h
        subst h
        constructor
        · simp [flattenForest]
        · intro e he
          simp [flattenForest] at he
      | cons d cs2 =>
        simp [optMapList, renderCategoryCard_zero] at h
  | succ f ih =>
    obtain ⟨-, ihf⟩ := ih
    have hnode : ∀ (b : Bool) (c : Category) (anc : List Category) (n : RNode),
        Reaches categories c anc →
        renderCategoryCard categories expanded (f + 1) b c = some n →
        (flattenNode n).Nodup ∧
        ∀ e ∈ flattenNode n, e = c ∨ ∃ t, Reaches categories e (t ++ c :: anc) := by
      intro b c anc n hre h
      rw [renderCategoryCard_succ] at h
      rcases renderStep_eq_some h with ⟨hcond, rfl⟩ | ⟨hcond, ch, hmap, rfl⟩
      · constructor
        · simp [flattenNode, flattenForest]
        · intro e he
          simp only [flattenNode, flattenForest] at he
          rw [List.mem_singleton] at he
          exact Or.inl he
      · have hch : ∀ d ∈ getSubcategories categories c.id,
            Reaches categories d (c :: anc) := by
          intro d hd
          rcases mem_getSubcategories.mp hd with ⟨hdc, hdp⟩
          exact Reaches.step d c anc hdc hdp hre
        have hndsub : (getSubcategories categories c.id).Nodup :=
          getSubcategories_nodup hids.of_map _
        obtain ⟨hfnd, hfmem⟩ :=
          ihf true (getSubcategories categories c.id) (c :: anc) ch hch hndsub hmap
        constructor
        · simp only [flattenNode]
          rw [List.nodup_cons]
          refine ⟨fun hcm => ?_, hfnd⟩
          rcases hfmem c hcm with ⟨d, hd, hcd | ⟨t, ht⟩⟩
          · have := congrArg List.length
              (Reaches.unique hids hpar hre (hcd.symm ▸ hch d hd))
            rw [List.length_cons] at this
            omega
          · have := congrArg List.length (Reaches.unique hids hpar hre ht)
            simp only [List.length_append, List.length_cons] at this
            omega
        · intro e he
          simp only [flattenNode] at he
          rcases List.mem_cons.mp he with rfl | he2
          · exact Or.inl rfl
          · refine Or.inr ?_
            rcases hfmem e he2 with ⟨d, hd, rfl | ⟨t, ht⟩⟩
            · exact ⟨[], by simpa using hch e hd⟩
            · exact ⟨t ++ [d], by simpa [List.append_assoc] using ht⟩
    have hforest : ∀ (b : Bool) (cs : List Category) (anc₀ : List Category) (ns : List RNode),
        (∀ d ∈ cs, Reaches categories d anc₀) → cs.Nodup →
        optMapList (renderCategoryCard categories expanded (f + 1) b) cs = some ns →
        (flattenForest ns).Nodup ∧
        ∀ e ∈ flattenForest ns, ∃ d ∈ cs, e = d ∨ ∃ t, Reaches categories e (t ++ d :: anc₀) := by
      intro b cs
      induction cs with
      | nil =>
        intro anc₀ ns hre hnd h
        simp only [optMapList, Option.some.injEq] at h
        subst h
        constructor
        · simp [flattenForest]
        · intro e he
          simp [flattenForest] at he
      | cons d cs2 ihcs =>
        intro anc₀ ns hre hnd h
        cases hd : renderCategoryCard categories expanded (f + 1) b d with
        | none => simp [optMapList, hd] at h
        | some nd =>
          cases hrest : optMapList (renderCategoryCard categories expanded (f + 1) b) cs2 with
          | none => simp [optMapList, hd, hrest] at h
          | some ns2 =>
            simp only [optMapList, hd, hrest, Option.some.injEq] at h
            subst h
            have hdn : d ∉ cs2 := (List.nodup_cons.mp hnd).1
            obtain ⟨hnd1, hmem1⟩ :=
              hnode b d anc₀ nd (hre d (List.mem_cons_self d cs2)) hd
            obtain ⟨hnd2, hmem2⟩ :=
              ihcs anc₀ ns2 (fun x hx => hre x (List.mem_cons_of_mem d hx))
                (List.nodup_cons.mp hnd).2 hrest
            constructor
            · simp only [flattenForest]
              rw [List.nodup_append]
              refine ⟨hnd1, hnd2, ?_⟩
              intro e he1 he2
              rcases hmem1 e he1 with rfl | ⟨t, ht⟩
              · rcases hmem2 e he2 with ⟨d2, hd2, hc2 | ⟨t2, ht2⟩⟩
                · exact hdn (hc2 ▸ hd2)
                · have := congrArg List.length
                    (Reaches.unique hids hpar (hre e (List.mem_cons_self e cs2)) ht2)
                  simp only [List.length_append, List.length_cons] at this
                  omega
              · rcases hmem2 e he2 with ⟨d2, hd2, rfl | ⟨t2, ht2⟩⟩
                · have := congrArg List.length
                    (Reaches.unique hids hpar (hre e (List.mem_cons_of_mem d hd2)) ht)
                  simp only [List.length_append, List.length_cons] at this
                  omega
                · have heq := Reaches.unique hids hpar ht ht2
                  have hlen : t.length = t2.length := by
                    have := congrArg List.length heq
                    simp only [List.length_append, List.length_cons] at this
                    omega
                  obtain ⟨-, h2⟩ := List.append_inj heq hlen
                  have hd12 : d = d2 := (List.cons.inj h2).1
                  exact hdn (hd12 ▸ hd2)
            · intro e he
              simp only [flattenForest] at he
              rcases List.mem_append.mp he with he1 | he2
              · rcases hmem1 e he1 with rfl | ⟨t, ht⟩
                · exact ⟨e, List.mem_cons_self e cs2, Or.inl rfl⟩
                · exact ⟨d, List.mem_cons_self d cs2, Or.inr ⟨t, ht⟩⟩
              · rcases hmem2 e he2 with ⟨d2, hd2, hc2⟩
                exact ⟨d2, List.mem_cons_of_mem d hd2, hc2⟩
    exact ⟨hnode, hforest⟩

/-! ### Delete guard (claim C3) -/

/-- `handleDeleteCategory` unfolded through the named helpers: its inline
`items.filter(...)` / `categories.filter(...)` are exactly `getItemCount`
and `getSubcategories`. -/
theorem handleDeleteCategory_eq (categories : List Category) (items : List JewelryItem)
    (confirmResult : Bool) (id categoryName : String) :
    handleDeleteCategory categories items confirmResult id categoryName =
      if 0 < getItemCount items categoryName then
        .blockedByItems (itemsBlockMessage categoryName (getItemCount items categoryName))
      else if 0 < (getSubcategories categories id).length then
        .blockedBySubcategories
          (subsBlockMessage categoryName (getSubcategories categories id).length)
      else if confirmResult then .deleteIssued id
      else .cancelled := rfl

/-- C3: a delete request is rejected with a message citing the exact item
count when any `JewelryItem.category` equals the category's name; otherwise
rejected citing the exact subcategory count when any category has it as
parent; only with both counts zero is the remote delete issued, and only
when the interactive confirmation is granted — declining issues no call,
and neither do the two rejections. -/
theorem c3_delete_guard (categories : List Category) (items : List JewelryItem)
    (confirmResult : Bool) (id categoryName : String) :
    (0 < getItemCount items categoryName →
      handleDeleteCategory categories items confirmResult id categoryName =
        .blockedByItems (itemsBlockMessage categoryName (getItemCount items categoryName)) ∧
      remoteDeleteOf (handleDeleteCategory categories items confirmResult id categoryName) =
        none) ∧
    (getItemCount items categoryName = 0 →
      0 < (getSubcategories categories id).length →
      handleDeleteCategory categories items confirmResult id categoryName =
        .blockedBySubcategories
          (subsBlockMessage categoryName (getSubcategories categories id).length) ∧
      remoteDeleteOf (handleDeleteCategory categories items confirmResult id categoryName) =
        none) ∧
    (getItemCount items categoryName = 0 → (getSubcategories categories id).length = 0 →
      (confirmResult = true →
        handleDeleteCategory categories items confirmResult id categoryName =
          .deleteIssued id) ∧
      (confirmResult = false →
        handleDeleteCategory categories items confirmResult id categoryName = .cancelled ∧
        remoteDeleteOf (handleDeleteCategory categories items confirmResult id categoryName) =
          none)) := by
  rw [handleDeleteCategory_eq]
  refine ⟨fun h => ?_, fun h0 h1 => ?_, fun h0 h1 => ⟨fun hc => ?_, fun hc => ?_⟩⟩
  · rw [if_pos h]; exact ⟨rfl, rfl⟩
  · rw [if_neg (by omega), if_pos h1]; exact ⟨rfl, rfl⟩
  · rw [if_neg (by omega), if_neg (by omega), if_pos hc]
  · rw [if_neg (by omega), if_neg (by omega), if_neg (by simp [hc])]; exact ⟨rfl, rfl⟩

/-- Witness for C3 at the spec's example: two items tagged `"Rings"` block
the deletion with a message citing the count 2. -/
theorem c3_delete_guard_witness :
    0 < getItemCount [⟨"Rings"⟩, ⟨"Rings"⟩] "Rings" ∧
    handleDeleteCategory [] [⟨"Rings"⟩, ⟨"Rings"⟩] true "c1" "Rings" =
      .blockedByItems (itemsBlockMessage "Rings" (getItemCount [⟨"Rings"⟩, ⟨"Rings"⟩] "Rings")) ∧
    remoteDeleteOf (handleDeleteCategory [] [⟨"Rings"⟩, ⟨"Rings"⟩] true "c1" "Rings") = none :=
  ⟨by decide,
   ((c3_delete_guard [] [⟨"Rings"⟩, ⟨"Rings"⟩] true "c1" "Rings").1 (by decide)).1,
   ((c3_delete_guard [] [⟨"Rings"⟩, ⟨"Rings"⟩] true "c1" "Rings").1 (by decide)).2⟩

/-! ### Gold price poller (claim C4) -/

/-- C4: a failed fetch keeps the previously held price and sets the error
message to a non-null value; a fetch that succeeds after a prior failure
clears the error and stores the new price (so the recurring fetches keep
being processed after a failure); the price is seeded with the static
fallback `5450` before any fetch completes. -/
theorem c4_gold_price_poller (st : GoldPriceState) (p : Int) :
    (fetchGoldPrice st true none).goldPrice = st.goldPrice ∧
    (fetchGoldPrice st true none).error = some "Failed to fetch gold price" ∧
    (fetchGoldPrice (fetchGoldPrice st true none) true (some p)).error = none ∧
    (fetchGoldPrice (fetchGoldPrice st true none) true (some p)).goldPrice = p ∧
    initialGoldPriceState.goldPrice = 5450 ∧
    initialGoldPriceState.loading = true ∧
    initialGoldPriceState.error = none :=
  ⟨rfl, rfl, rfl, rfl, rfl, rfl, rfl⟩

/-! ### Submit normalization (claim C5) -/

/-- C5: on submission — create and edit alike — an empty-string `parent_id`
in the form is normalized to an absent value in the record sent to the
backend, and a non-empty `parent_id` is passed through unchanged. -/
theorem c5_parent_id_normalization (st : AdminCategoriesState) :
    (submitRequest st).payload = buildSubmitData st.categoryFormData ∧
    (st.categoryFormData.parent_id = "" →
      (buildSubmitData st.categoryFormData).parent_id = none) ∧
    (st.categoryFormData.parent_id ≠ "" →
      (buildSubmitData st.categoryFormData).parent_id = some st.categoryFormData.parent_id) := by
  refine ⟨?_, fun h => ?_, fun h => ?_⟩
  · cases h : st.editingCategory <;> simp [submitRequest, SubmitRequest.payload, h]
  · simp [buildSubmitData, h]
  · simp [buildSubmitData, h]

/-- Witness for C5: a form whose `parent_id` was left as the empty string
persists an absent parent reference. -/
theorem c5_parent_id_normalization_witness :
    (⟨"Rings", "", "", ""⟩ : CategoryFormData).parent_id = "" ∧
    (buildSubmitData ⟨"Rings", "", "", ""⟩).parent_id = none :=
  ⟨rfl, (c5_parent_id_normalization ⟨[], true, none, ⟨"Rings", "", "", ""⟩⟩).2.1 rfl⟩

/-! ### Image count and cover image (claim C6) -/

/-- C6 counterexample: for `image_url = " ,b.jpg"` the trimmed first
comma-separated segment is `""`, but the displayed cover image is the
hard-coded fallback (the `|| fallback` in line 149), not that segment — so
the cover image is not always the trimmed first segment. -/
theorem c6_counterexample :
    coverImage oddImageCat = fallbackCoverImage ∧
    jsTrim ((jsSplitComma " ,b.jpg").headD "") = "" ∧
    fallbackCoverImage ≠ "" :=
  ⟨by decide, by decide, by decide⟩

/-- C6 (amended): the image count equals the number of comma-separated
segments of `image_url` that are non-empty after trimming (0 when absent or
empty), and the displayed cover image is the trimmed first comma-separated
segment when that segment is non-empty; when `image_url` is absent or the
trimmed first segment is empty, a static fallback image URL is displayed
instead. -/
theorem c6_image_count_and_cover (c : Category) :
    getImageCount c = specImageCount c.image_url ∧
    (c.image_url = none → coverImage c = fallbackCoverImage) ∧
    ∀ s, c.image_url = some s →
      (jsTrim ((jsSplitComma s).headD "") ≠ "" →
        coverImage c = jsTrim ((jsSplitComma s).headD "")) ∧
      (jsTrim ((jsSplitComma s).headD "") = "" → coverImage c = fallbackCoverImage) := by
  refine ⟨?_, fun h => ?_, fun s hs => ?_⟩
  · cases himg : c.image_url with
    | none => simp [getImageCount, specImageCount, himg]
    | some s =>
      simp only [getImageCount, specImageCount, himg]
      by_cases hs : s = ""
      · subst hs; rw [if_pos rfl]; decide
      · rw [if_neg hs]
  · simp [coverImage, h]
  · simp only [coverImage, hs]
    refine ⟨fun hne => ?_, fun he => ?_⟩
    · rw [if_neg hne]
    · rw [if_pos he]

/-- Witness for C6 at the spec's example `"a.jpg, b.jpg,  c.jpg"`: three
non-empty trimmed segments, cover image `"a.jpg"`. -/
theorem c6_image_count_and_cover_witness :
    galleryCat.image_url = some "a.jpg, b.jpg,  c.jpg" ∧
    jsTrim ((jsSplitComma "a.jpg, b.jpg,  c.jpg").headD "") ≠ "" ∧
    getImageCount galleryCat = specImageCount galleryCat.image_url ∧
    coverImage galleryCat = jsTrim ((jsSplitComma "a.jpg, b.jpg,  c.jpg").headD "") ∧
    getImageCount galleryCat = 3 ∧
    coverImage galleryCat = "a.jpg" :=
  ⟨rfl, by decide, (c6_image_count_and_cover galleryCat).1,
   ((c6_image_count_and_cover galleryCat).2.2 _ rfl).1 (by decide), by decide, by decide⟩

/-! ### Item count (claim C7) -/

/-- C7: the displayed item count is the number of `JewelryItem`s whose
`category` field is exactly equal to the category's name — case-sensitive,
no trimming: among `"Rings"`, `"rings"`, `" Rings"` and `"Rings"` only the
two exact matches count. -/
theorem c7_item_count (items : List JewelryItem) (categoryName : String) :
    getItemCount items categoryName =
      items.countP (fun item => item.category == categoryName) ∧
    getItemCount [⟨"Rings"⟩, ⟨"rings"⟩, ⟨" Rings"⟩, ⟨"Rings"⟩] "Rings" = 2 := by
  constructor
  · simp [getItemCount, List.countP_eq_length_filter]
  · decide

/-! ### Submit success/failure handling (claim C8) -/

/-- C8: a failed submission surfaces an error (`true`) and leaves the
component state — open form, entered values, editing selection — exactly as
it was; a successful one stores the reloaded list and then closes and
resets the form (and still closes it when the reload yields no data, whose
failures `loadCategories` swallows). -/
theorem c8_submit_success_failure (st : AdminCategoriesState)
    (reloadData : Option (List Category)) (cs : List Category) :
    handleCategorySubmit st false reloadData = (st, true) ∧
    handleCategorySubmit st true (some cs) =
      ({ categories := cs, showAddCategoryForm := false, editingCategory := none,
         categoryFormData := emptyCategoryFormData }, false) ∧
    handleCategorySubmit st true none =
      ({ st with showAddCategoryForm := false, editingCategory := none, categoryFormData := emptyCategoryFormData }, false) :=
  ⟨rfl, rfl, rfl⟩

/-! ### Access policies (claim C10) -/

/-- C10: the migration's policy set matches the role matrix — public select
on `categories` and `jewelry_items`, authenticated-only insert/update/delete
on them, authenticated-only select/insert/update on `admin_settings`, no
public policy on `admin_settings` and no delete policy on `admin_settings`
at all. -/
theorem c10_policy_matrix :
    hasPolicy "categories" .select .public = true ∧
    hasPolicy "jewelry_items" .select .public = true ∧
    hasPolicy "categories" .insert .authenticated = true ∧
    hasPolicy "categories" .update .authenticated = true ∧
    hasPolicy "categories" .delete .authenticated = true ∧
    hasPolicy "jewelry_items" .insert .authenticated = true ∧
    hasPolicy "jewelry_items" .update .authenticated = true ∧
    hasPolicy "jewelry_items" .delete .authenticated = true ∧
    hasPolicy "categories" .insert .public = false ∧
    hasPolicy "categories" .update .public = false ∧
    hasPolicy "categories" .delete .public = false ∧
    hasPolicy "jewelry_items" .insert .public = false ∧
    hasPolicy "jewelry_items" .update .public = false ∧
    hasPolicy "jewelry_items" .delete .public = false ∧
    hasPolicy "admin_settings" .select .authenticated = true ∧
    hasPolicy "admin_settings" .insert .authenticated = true ∧
    hasPolicy "admin_settings" .update .authenticated = true ∧
    migrationPolicies.all (fun p => p.table != "admin_settings" || p.role == .authenticated) = true ∧
    migrationPolicies.all (fun p => p.table != "admin_settings" || p.op != .delete) = true ∧
    hasPolicy "admin_settings" .delete .authenticated = false ∧
    hasPolicy "admin_settings" .delete .public = false := by
  decide

/-! ### Rendering structure (claims C1, C2, C9) -/

/-- C1 counterexample: a category whose `parent_id` is present but equal to
the empty string is rendered as a top-level node (the code tests JS
falsiness `!cat.parent_id`, not absence), so a rendered top-level node can
have a non-absent `parent_id`; the input has distinct ids. -/
theorem c1_counterexample :
    renderTree [catEmptyParent] [] 1 = some [.node catEmptyParent false []] ∧
    catEmptyParent.parent_id = some "" ∧
    catEmptyParent.parent_id ≠ none ∧
    ([catEmptyParent].map Category.id).Nodup :=
  ⟨rfl, rfl, by decide, by decide⟩

/-- C1 (amended): for every flat category list with distinct ids in which no
record's `parent_id` is the empty string, and any expansion state, the
derived rendering (at the sufficient recursion budget `categories.length`)
satisfies: the top-level cards are exactly the categories with an absent
`parent_id`, in input order; every card's children are exactly the
categories whose `parent_id` equals its id (in input order, when expanded);
and no category is rendered twice. -/
theorem c1_rendering_structure (categories : List Category) (expanded : List String)
    (hids : (categories.map Category.id).Nodup)
    (hpar : ∀ c ∈ categories, c.parent_id ≠ some "") :
    ∃ forest, renderTree categories expanded categories.length = some forest ∧
      forest.map RNode.cat = topLevelCategories categories ∧
      (∀ c ∈ topLevelCategories categories, c.parent_id = none) ∧
      (∀ n ∈ forest, NodeOK categories expanded n) ∧
      (flattenForest forest).Nodup := by
  have htop : ∀ c ∈ topLevelCategories categories, Reaches categories c [] := by
    intro c hc
    rcases mem_topLevelCategories.mp hc with ⟨hm, hf⟩
    exact Reaches.root c hm hf
  have hsome : (renderTree categories expanded categories.length).isSome := by
    unfold renderTree
    apply optMapList_isSome
    intro c hc
    exact renderCategoryCard_isSome hids hpar categories.length false (htop c hc) (by simp)
  rcases Option.isSome_iff_exists.mp hsome with ⟨forest, hforest⟩
  have hforest2 := hforest
  unfold renderTree at hforest2
  refine ⟨forest, hforest, ?_, ?_, ?_, ?_⟩
  · exact optMapList_map_eq (fun a n hn => renderCategoryCard_cat hn) hforest2
  · intro c hc
    rcases mem_topLevelCategories.mp hc with ⟨hm, hf⟩
    exact falsy_parent_eq_none hpar hm hf
  · intro n hn
    rcases optMapList_mem_exists hforest2 n hn with ⟨c, hc, hcn⟩
    exact renderCategoryCard_nodeOK hcn
  · have hndtop : (topLevelCategories categories).Nodup := List.Nodup.filter _ (List.Nodup.of_map _ hids)
    exact ((renderSound hids hpar categories.length).2 false
      (topLevelCategories categories) [] forest htop hndtop hforest2).1

/-- Witness for C1 at the three-category chain. -/
theorem c1_rendering_structure_witness :
    ((chainCats.map Category.id).Nodup ∧ ∀ c ∈ chainCats, c.parent_id ≠ some "") ∧
    (∃ forest, renderTree chainCats chainExpanded chainCats.length = some forest ∧
      forest.map RNode.cat = topLevelCategories chainCats ∧
      (∀ c ∈ topLevelCategories chainCats, c.parent_id = none) ∧
      (∀ n ∈ forest, NodeOK chainCats chainExpanded n) ∧
      (flattenForest forest).Nodup) :=
  ⟨⟨by decide, by decide⟩,
   c1_rendering_structure chainCats chainExpanded (by decide) (by decide)⟩

/-- C2 counterexample: with `chainA ← chainB ← chainC` and both `chainA`
and `chainB` expanded, the rendering nests three levels — `chainC`, a child
of a child, is rendered — so the output is not limited to two tiers. -/
theorem c2_counterexample :
    renderTree chainCats chainExpanded 3 =
      some [.node chainA false [.node chainB true [.node chainC true []]]] ∧
    chainB.parent_id = some chainA.id ∧
    chainC.parent_id = some chainB.id :=
  ⟨rfl, rfl, rfl⟩

/-- C2 (amended): the presenter recurses with no depth limit — in any
successful rendering, every card's children are exactly its direct
subcategories when it has some and is expanded (and empty otherwise), at
every depth; children of children are therefore rendered whenever their
parent, itself a subcategory, is expanded. -/
theorem c2_recursive_children (categories : List Category) (expanded : List String)
    (fuel : Nat) (forest : List RNode)
    (h : renderTree categories expanded fuel = some forest) :
    ∀ n ∈ forest, NodeOK categories expanded n := by
  intro n hn
  unfold renderTree at h
  rcases optMapList_mem_exists h n hn with ⟨c, hc, hcn⟩
  exact renderCategoryCard_nodeOK hcn

/-- Witness for C2 at the three-category chain. -/
theorem c2_recursive_children_witness :
    renderTree chainCats chainExpanded 3 = some chainForest ∧
    ∀ n ∈ chainForest, NodeOK chainCats chainExpanded n :=
  ⟨rfl, c2_recursive_children chainCats chainExpanded 3 chainForest rfl⟩

/-- On the cyclic input, each of the two categories renders only through the
other, so every finite recursion budget is exhausted. -/
theorem cyc_render_none : ∀ (fuel : Nat) (b : Bool),
    renderCategoryCard cycCats cycExpanded fuel b cycX = none ∧
    renderCategoryCard cycCats cycExpanded fuel b cycE = none := by
  intro fuel
  induction fuel with
  | zero => intro b; exact ⟨rfl, rfl⟩
  | succ f ih =>
    intro b
    constructor
    · rw [renderCategoryCard_succ]
      unfold renderStep
      have h1 : getSubcategories cycCats cycX.id = [cycE] := rfl
      rw [h1, if_pos (by decide)]
      have h2 : optMapList (renderCategoryCard cycCats cycExpanded f true) [cycE] = none := by
        simp [optMapList, (ih true).2]
      rw [h2]
    · rw [renderCategoryCard_succ]
      unfold renderStep
      have h1 : getSubcategories cycCats cycE.id = [cycX] := rfl
      rw [h1, if_pos (by decide)]
      have h2 : optMapList (renderCategoryCard cycCats cycExpanded f true) [cycX] = none := by
        simp [optMapList, (ih true).1]
      rw [h2]

/-- The cyclic input never renders, whatever the recursion budget. -/
theorem renderTree_cyc_none : ∀ fuel : Nat, renderTree cycCats cycExpanded fuel = none := by
  intro fuel
  unfold renderTree
  have h1 : topLevelCategories cycCats = [cycX] := rfl
  rw [h1]
  simp [optMapList, (cyc_render_none fuel false).1]

/-- C9 counterexample: `cycCats` has distinct ids (`"x"` and `""`), yet its
`parent_id` links form a cycle the renderer follows — `cycX` is top-level
because its `parent_id` `""` is falsy, renders its subcategory `cycE`
(id `""`), which renders `cycX` again — so the recursive rendering does not
terminate: the model returns `none` at the canonical budget and at any
larger one. -/
theorem c9_counterexample :
    (cycCats.map Category.id).Nodup ∧
    renderTree cycCats cycExpanded cycCats.length = none ∧
    renderTree cycCats cycExpanded 100 = none :=
  ⟨by decide, renderTree_cyc_none cycCats.length, renderTree_cyc_none 100⟩

/-- C9 (amended): for every finite category list with distinct ids in which
no record's `parent_id` is the empty string, the recursive rendering
terminates — the budget `categories.length` suffices and every larger
budget returns the same forest — every rendered category is reachable from
a top-level category by a finite chain of `parent_id` links, no category
whose `parent_id` participates in a cycle is ever rendered, and each
rendered category is visited exactly once by the tree walk. -/
theorem c9_rendering_terminates (categories : List Category) (expanded : List String)
    (hids : (categories.map Category.id).Nodup)
    (hpar : ∀ c ∈ categories, c.parent_id ≠ some "") :
    ∃ forest, renderTree categories expanded categories.length = some forest ∧
      (∀ fuel, categories.length ≤ fuel → renderTree categories expanded fuel = some forest) ∧
      (flattenForest forest).Nodup ∧
      (∀ e ∈ flattenForest forest, ∃ anc, Reaches categories e anc) ∧
      (∀ e ∈ flattenForest forest, ¬ InParentCycle categories e) := by
  have htop : ∀ c ∈ topLevelCategories categories, Reaches categories c [] := by
    intro c hc
    rcases mem_topLevelCategories.mp hc with ⟨hm, hf⟩
    exact Reaches.root c hm hf
  have hsome : (renderTree categories expanded categories.length).isSome := by
    unfold renderTree
    apply optMapList_isSome
    intro c hc
    exact renderCategoryCard_isSome hids hpar categories.length false (htop c hc) (by simp)
  rcases Option.isSome_iff_exists.mp hsome with ⟨forest, hforest⟩
  have hforest2 := hforest
  unfold renderTree at hforest2
  have hndtop : (topLevelCategories categories).Nodup := List.Nodup.filter _ (List.Nodup.of_map _ hids)
  obtain ⟨hnd, hmem⟩ := (renderSound hids hpar categories.length).2 false
    (topLevelCategories categories) [] forest htop hndtop hforest2
  refine ⟨forest, hforest, fun fuel hf => renderTree_mono hf hforest, hnd, ?_, ?_⟩
  · intro e he
    rcases hmem e he with ⟨d, hd, rfl | ⟨t, ht⟩⟩
    · exact ⟨[], htop e hd⟩
    · exact ⟨t ++ d :: [], ht⟩
  · intro e he
    rcases hmem e he with ⟨d, hd, rfl | ⟨t, ht⟩⟩
    · exact (htop e hd).not_inParentCycle hids hpar
    · exact ht.not_inParentCycle hids hpar

/-- Witness for C9 at the three-category chain. -/
theorem c9_rendering_terminates_witness :
    ((chainCats.map Category.id).Nodup ∧ ∀ c ∈ chainCats, c.parent_id ≠ some "") ∧
    (∃ forest, renderTree chainCats chainExpanded chainCats.length = some forest ∧
      (∀ fuel, chainCats.length ≤ fuel →
        renderTree chainCats chainExpanded fuel = some forest) ∧
      (flattenForest forest).Nodup ∧
      (∀ e ∈ flattenForest forest, ∃ anc, Reaches chainCats e anc) ∧
      (∀ e ∈ flattenForest forest, ¬ InParentCycle chainCats e)) :=
  ⟨⟨by decide, by decide⟩,
   c9_rendering_terminates chainCats chainExpanded (by decide) (by decide)⟩

end JewelryApp
